import Mathlib

/-!
Verification of the analytic core of `analyze_timestamps.py`
(block-timestamp-logger): a shallow embedding of the statistics,
batch-simulation and trend-analysis computations, with theorems
checking the natural-language specification against them.

Durations (signed deviations, milliseconds) are embedded as exact
rationals; the Python code computes with IEEE floats, but every claim
under check concerns counts, comparisons and rational arithmetic, for
which the float computation agrees with the exact one on the inputs
considered.  Where the source compares against a standard deviation
(a square root), the embedded decision procedure uses the equivalent
squared comparison and the corresponding theorem re-states it with
`Real.sqrt`.
-/

namespace TimestampAnalysis

/-! ### Data model -/

/-- One row of a `*_detailed.csv` file: block number, raw block
timestamp (seconds) and signed deviation "Delta (ms)". -/
structure Record where
  blockNumber : ℕ
  blockTimestampS : ℚ
  deltaMs : ℚ
deriving DecidableEq

/-- A per-chain sample (`detailed_data[chain]` in the source). -/
structure ChainSeries where
  chainId : String
  records : List Record
deriving DecidableEq

/-- Projection of the signed deviations (the `Delta (ms)` column). -/
def ChainSeries.deviations (s : ChainSeries) : List ℚ :=
  s.records.map (fun r => r.deltaMs)

/-! ### Basic aggregates (pandas semantics) -/

/-- `Series.mean()`: arithmetic mean.  (On an empty series pandas
yields NaN; the embedding yields `0/0 = 0`, and every claim under
check only applies `mean` to non-empty slices.) -/
def mean (xs : List ℚ) : ℚ := xs.sum / (xs.length : ℚ)

/-- Square of `Series.std()` (sample standard deviation, `ddof = 1`):
the sum of squared deviations from the mean divided by `n - 1`.  The
source only compares the standard deviation after scaling, so all
uses go through this square. -/
def sampleVar (xs : List ℚ) : ℚ :=
  (xs.map (fun x => (x - mean xs) ^ 2)).sum / ((xs.length : ℚ) - 1)

/-- `Series.quantile(q)` with the default linear interpolation: on the
sorted sample `s₀ ≤ … ≤ s₍ₙ₋₁₎`, with `h = (n-1)·q`, `lo = ⌊h⌋`,
the value is `s_lo + (h - lo)·(s_{lo+1} - s_lo)` (the upper index
clamped at the end of the list). -/
def quantile (xs : List ℚ) (q : ℚ) : ℚ :=
  let s := xs.mergeSort (fun a b => decide (a ≤ b))
  if s.length = 0 then 0
  else
    let h : ℚ := ((s.length : ℚ) - 1) * q
    let lo : ℕ := (⌊h⌋).toNat
    let a := s.getD lo 0
    let b := s.getD (lo + 1) a
    a + (h - (lo : ℚ)) * (b - a)

/-! ### BatchSimulator (`batch_simulation`, src lines 266-322, and the
recommendation block of `main`, src lines 539-613) -/

/-- Line 279: `wrong_batch_count = (abs_deltas > batch_window_ms).sum()` —
the number of samples whose absolute deviation strictly exceeds the
window. -/
def wrongBatchCount (devs : List ℚ) (w : ℚ) : ℕ :=
  devs.countP (fun d => decide (w < |d|))

/-- Line 291: the correctly assigned count is printed as
`len(deltas) - wrong_batch_count`. -/
def correctBatchCount (devs : List ℚ) (w : ℚ) : ℕ :=
  devs.length - wrongBatchCount devs w

/-- Line 283: `((deltas < 0) & (abs_deltas > batch_window_ms)).sum()`. -/
def futureWrongCount (devs : List ℚ) (w : ℚ) : ℕ :=
  devs.countP (fun d => decide (d < 0) && decide (w < |d|))

/-- Line 286: `((deltas > 0) & (abs_deltas > batch_window_ms)).sum()`. -/
def pastWrongCount (devs : List ℚ) (w : ℚ) : ℕ :=
  devs.countP (fun d => decide (0 < d) && decide (w < |d|))

/-- Lines 307 and 567: `max(percentile_99 * 2, 5000)` where
`percentile_99 = abs_deltas.quantile(0.99)`. -/
def suggestedWindow (devs : List ℚ) : ℚ :=
  max (quantile (devs.map (fun d => |d|)) (99 / 100) * 2) 5000

/-- Line 568: `buffer_window = suggested_window * 0.2`. -/
def bufferWindow (devs : List ℚ) : ℚ :=
  suggestedWindow devs * (2 / 10)

/-- Line 572 prints `suggested_window + buffer_window` as the
"with safety buffer" variant. -/
def bufferedWindowReported (devs : List ℚ) : ℚ :=
  suggestedWindow devs + bufferWindow devs

/-- Lines 311-320: the reliability tier from the mis-bucketed
percentage. -/
def reliabilityLabel (pct : ℚ) : String :=
  if pct < 1 then "Extremely Reliable"
  else if pct < 2 then "Very Reliable"
  else if pct < 5 then "Reliable"
  else if pct < 10 then "Moderately Reliable"
  else "Less Reliable"

/-- The numeric outputs of one `batch_simulation` iteration. -/
structure BatchReport where
  wrongCount : ℕ
  wrongPct : ℚ
  futureWrong : ℕ
  futureWrongPct : ℚ
  pastWrong : ℕ
  pastWrongPct : ℚ
  medianAbs : ℚ
  p95Abs : ℚ
  p99Abs : ℚ
  recommendedWindow : ℚ
  reliability : String
deriving DecidableEq

/-- Possible outcomes of running `batch_simulation` on one chain.
`nanDivision` models the unguarded numpy division
`wrong_batch_count / len(deltas)` evaluating `0 / 0` to NaN on an
empty series (line 280).  The source defines no exception or
validation path whatsoever; the `validationError` constructor exists
only so that the specification's claimed behaviour (a dedicated
validation error on the empty series) can be stated, and it is never
produced. -/
inductive BatchOutcome where
  | report (r : BatchReport)
  | nanDivision
  | validationError
deriving DecidableEq

/-- `batch_simulation` for one chain (src lines 273-322).  The body
performs `wrong_batch_count / len(deltas) * 100` and the quantile
computations with no emptiness guard, so on an empty series the
division by `len(deltas) = 0` is reached and yields NaN
(`nanDivision`); otherwise all fields are computed as in the source. -/
def batchSimulation (devs : List ℚ) (w : ℚ) : BatchOutcome :=
  if devs.length = 0 then .nanDivision
  else
    let absDevs := devs.map (fun d => |d|)
    let n : ℚ := (devs.length : ℚ)
    let wc := wrongBatchCount devs w
    .report {
      wrongCount := wc
      wrongPct := (wc : ℚ) / n * 100
      futureWrong := futureWrongCount devs w
      futureWrongPct := (futureWrongCount devs w : ℚ) / n * 100
      pastWrong := pastWrongCount devs w
      pastWrongPct := (pastWrongCount devs w : ℚ) / n * 100
      medianAbs := quantile absDevs (1 / 2)
      p95Abs := quantile absDevs (95 / 100)
      p99Abs := quantile absDevs (99 / 100)
      recommendedWindow := suggestedWindow devs
      reliability := reliabilityLabel ((wc : ℚ) / n * 100)
    }

/-! ### Directional summary of `main` (src lines 549-550) -/

/-- Line 549: `(deltas < 0).sum()` — the future-timestamp count used
by the recommendations block (strictly negative deviations only). -/
def futureCount (devs : List ℚ) : ℕ :=
  devs.countP (fun d => decide (d < 0))

/-- Line 549: `future_pct = ((deltas < 0).sum() / len(deltas)) * 100`. -/
def futurePct (devs : List ℚ) : ℚ :=
  (futureCount devs : ℚ) / (devs.length : ℚ) * 100

/-- Line 550: `past_pct = 100 - future_pct`. -/
def pastPct (devs : List ℚ) : ℚ :=
  100 - futurePct devs

/-! ### TrendAnalyzer (`analyze_trends`, src lines 399-494) -/

/-- Line 417: `df = df.sort_values('Block Number')` — a stable sort of
the records by block number, producing a fresh frame (the stored
series is not modified). -/
def sortRecords (rs : List Record) : List Record :=
  rs.mergeSort (fun a b => decide (a.blockNumber ≤ b.blockNumber))

/-- The `w`-element slice of `xs` starting at position `start`
(`df.iloc[start : start + w]`). -/
def windowSlice (xs : List ℚ) (start w : ℕ) : List ℚ :=
  (xs.drop start).take w

/-- Line 420: `rolling(window=w).mean()` at position `i` — defined
(`some`) once a full window `xs[i-w+1 .. i]` exists, NaN (`none`)
before that. -/
def rollingMeanAt (xs : List ℚ) (w i : ℕ) : Option ℚ :=
  if i + 1 < w then none else some (mean (windowSlice xs (i + 1 - w) w))

/-- Line 421: `rolling(window=w).std()` at position `i`, represented
by its square (the sample variance of the window). -/
def rollingVarAt (xs : List ℚ) (w i : ℕ) : Option ℚ :=
  if i + 1 < w then none else some (sampleVar (windowSlice xs (i + 1 - w) w))

/-- Line 424: mean absolute deviation of `df.iloc[:len(df)//2]`. -/
def firstHalfMeanAbs (rs : List Record) : ℚ :=
  mean ((rs.take (rs.length / 2)).map (fun r => |r.deltaMs|))

/-- Line 425: mean absolute deviation of `df.iloc[len(df)//2:]`. -/
def secondHalfMeanAbs (rs : List Record) : ℚ :=
  mean ((rs.drop (rs.length / 2)).map (fun r => |r.deltaMs|))

/-- Lines 427-428: `rel_trend = (second - first) / first * 100 if
first > 0 else 0`. -/
def halfRelDrift (rs : List Record) : ℚ :=
  if 0 < firstHalfMeanAbs rs then
    (secondHalfMeanAbs rs - firstHalfMeanAbs rs) / firstHalfMeanAbs rs * 100
  else 0

/-- The three drift verdicts printed at lines 431-436. -/
inductive DriftClass where
  | stable
  | improving
  | degrading
deriving DecidableEq

/-- Lines 431-436: `STABLE` when `abs(rel_trend) < 5`, else
`IMPROVING` when `rel_trend < 0`, else `DEGRADING`. -/
def halfDriftClass (rs : List Record) : DriftClass :=
  if |halfRelDrift rs| < 5 then .stable
  else if halfRelDrift rs < 0 then .improving
  else .degrading

/-- Line 441: `df['Block Timestamp (s)'].diff()` — consecutive
differences of the raw block timestamps (the leading NaN row
dropped). -/
def timeDiffs (rs : List Record) : List ℚ :=
  (rs.zip rs.tail).map (fun p => p.2.blockTimestampS - p.1.blockTimestampS)

/-- The three correlation verdicts printed at lines 445-450. -/
inductive CorrClass where
  | noCorrelation
  | slowerLessAccurate
  | fasterLessAccurate
deriving DecidableEq

/-- `xs` with the mean of `xs` subtracted from every element. -/
def centered (xs : List ℚ) : List ℚ :=
  xs.map (fun x => x - mean xs)

/-- Lines 442-450: the verdict on the Pearson correlation `corr`
between paired samples.  With `c` the centered cross-product sum and
`sx`, `sy` the centered square sums, `abs(corr) < 0.2` is the
(sign-free) squared comparison `25·c² < sx·sy`, and `corr > 0` is
`c > 0`.  When either variance is zero pandas yields NaN, whose
comparisons are all false, so control falls to the final branch —
exactly as in this embedding, where `c = 0` fails both tests. -/
def corrClassOf (xs ys : List ℚ) : CorrClass :=
  let c := (((centered xs).zip (centered ys)).map (fun p => p.1 * p.2)).sum
  let sx := ((centered xs).map (fun x => x ^ 2)).sum
  let sy := ((centered ys).map (fun y => y ^ 2)).sum
  if 25 * c ^ 2 < sx * sy then .noCorrelation
  else if 0 < c then .slowerLessAccurate
  else .fasterLessAccurate

/-- Lines 457-460: the IQR outlier cutoff
`q3 + 1.5 * (q3 - q1)` on absolute deviation. -/
def outlierThreshold (rs : List Record) : ℚ :=
  let absDs := rs.map (fun r => |r.deltaMs|)
  let q1 := quantile absDs (1 / 4)
  let q3 := quantile absDs (3 / 4)
  q3 + 3 / 2 * (q3 - q1)

/-- Line 461: the number of records whose absolute deviation strictly
exceeds the outlier cutoff. -/
def outlierCount (rs : List Record) : ℕ :=
  (rs.filter (fun r => decide (outlierThreshold rs < |r.deltaMs|))).length

/-- Lines 480-483 for one interior index `i`: the shift test
`abs(after - before) > 2 * std`, where `before`/`after` are the mean
absolute deviations of the `w` records before/from `i` and `std` is
the sample standard deviation of all absolute deviations.  Both sides
being nonnegative, the test is decided by the equivalent squared
comparison `(after - before)² > 4 · var`. -/
def shiftCond (absDs : List ℚ) (w i : ℕ) : Bool :=
  let before := mean (windowSlice absDs (i - w) w)
  let after := mean (windowSlice absDs i w)
  decide (4 * sampleVar absDs < (after - before) ^ 2)

/-- Lines 479-484: `for i in range(window_size, len(df) - window_size)`,
collecting the indices that pass the shift test. -/
def shiftScan (absDs : List ℚ) (w : ℕ) : List ℕ :=
  (List.range' w (absDs.length - 2 * w)).filter (fun i => shiftCond absDs w i)

/-- Line 488: `shifts[:3]` — at most the first three shift points are
printed. -/
def reportedShifts (shifts : List ℕ) : List ℕ :=
  shifts.take 3

/-- Lines 493-494: the `And {len(shifts) - 3} more...` remainder
count. -/
def remainderCount (shifts : List ℕ) : ℕ :=
  shifts.length - 3

/-- The outputs of one `analyze_trends` iteration.  `rollingAvgs` and
`rollingVars` are the per-row `Rolling_Avg`/`Rolling_Std` columns
(`none` = NaN, the variance standing in for the squared std);
`corr`/`avgBlockTime` are `none` when the `len(df) > 2` gate fails;
`shifts` is `none` when the `len(df) > 30` gate fails. -/
structure TrendReport where
  windowSize : ℕ
  rollingAvgs : List (Option ℚ)
  rollingVars : List (Option ℚ)
  relDrift : ℚ
  drift : DriftClass
  corr : Option CorrClass
  avgBlockTime : Option ℚ
  outliers : ℕ
  shifts : Option (List ℕ)
deriving DecidableEq

/-- The report computed by the body of `analyze_trends` once the
10-record gate has passed: every computation operates on the
block-number-sorted copy `rs` of the records (src line 417). -/
def trendReportOf (s : ChainSeries) : TrendReport :=
  let n := s.records.length
  let w := min 20 (n / 2)
  let rs := sortRecords s.records
  let ds := rs.map (fun r => r.deltaMs)
  let absDs := ds.map (fun d => |d|)
  { windowSize := w
    rollingAvgs := (List.range n).map (fun i => rollingMeanAt ds w i)
    rollingVars := (List.range n).map (fun i => rollingVarAt ds w i)
    relDrift := halfRelDrift rs
    drift := halfDriftClass rs
    corr := if 2 < n then some (corrClassOf (timeDiffs rs) (absDs.drop 1)) else none
    avgBlockTime := if 2 < n then some (mean (timeDiffs rs)) else none
    outliers := outlierCount rs
    shifts := if 30 < n then some (shiftScan absDs w) else none }

/-- `analyze_trends` for one chain (src lines 407-494): `none` when
fewer than 10 records exist (line 412), otherwise the report computed
on the block-number-sorted copy of the records. -/
def analyzeTrends (s : ChainSeries) : Option TrendReport :=
  if s.records.length < 10 then none else some (trendReportOf s)

/-- The `for chain, df in detailed_data.items()` loop of
`analyze_trends`: reports are produced per chain and the store of
series is returned as the loop leaves it (the body never assigns back
into `detailed_data`). -/
def runTrendAnalysis :
    List (String × ChainSeries) →
      List (String × ChainSeries) × List (String × Option TrendReport)
  | [] => ([], [])
  | (c, s) :: rest =>
    let out := runTrendAnalysis rest
    ((c, s) :: out.1, (c, analyzeTrends s) :: out.2)

/-! ### Concrete inputs used by witnesses and counterexamples -/

/-- Records with block numbers `i, i+1, …`, timestamp `i` (seconds)
and the given deviations. -/
def mkRecords : List ℚ → ℕ → List Record
  | [], _ => []
  | d :: ds, i => ⟨i, (i : ℚ), d⟩ :: mkRecords ds (i + 1)

/-- A detailed series named `X` with the given deviations. -/
def mkSeries (devs : List ℚ) : ChainSeries :=
  ⟨"X", mkRecords devs 0⟩

/-- What the specification asserts the rolling mean to be: the rolling
mean of the ABSOLUTE deviation of the block-number-sorted records
(spec wording for the rolling statistics); to be compared with the
source's `Rolling_Avg`, which rolls over the signed deviation. -/
def specRollingMeanAbsAt (rs : List Record) (w i : ℕ) : Option ℚ :=
  rollingMeanAt ((sortRecords rs).map (fun r => |r.deltaMs|)) w i

/-! ### Helper lemmas -/

theorem mkRecords_length (devs : List ℚ) (i : ℕ) :
    (mkRecords devs i).length = devs.length := by
  induction devs generalizing i with
  | nil => rfl
  | cons d ds ih => simp [mkRecords, ih]

theorem mkRecords_blockNumber_ge (devs : List ℚ) (i : ℕ) :
    ∀ r ∈ mkRecords devs i, i ≤ r.blockNumber := by
  induction devs generalizing i with
  | nil => simp [mkRecords]
  | cons d ds ih =>
    intro r hr
    simp only [mkRecords, List.mem_cons] at hr
    rcases hr with rfl | hr
    · exact le_refl _
    · exact le_trans (by omega) (ih (i + 1) r hr)

theorem mkRecords_pairwise (devs : List ℚ) (i : ℕ) :
    (mkRecords devs i).Pairwise
      (fun a b => (decide (a.blockNumber ≤ b.blockNumber)) = true) := by
  induction devs generalizing i with
  | nil => exact List.Pairwise.nil
  | cons d ds ih =>
    refine List.Pairwise.cons ?_ (ih (i + 1))
    intro b hb
    have := mkRecords_blockNumber_ge ds (i + 1) b hb
    simp only [decide_eq_true_eq]
    omega

theorem sortRecords_mkRecords (devs : List ℚ) (i : ℕ) :
    sortRecords (mkRecords devs i) = mkRecords devs i :=
  List.mergeSort_of_sorted (mkRecords_pairwise devs i)

theorem mkRecords_map_delta (devs : List ℚ) (i : ℕ) :
    (mkRecords devs i).map (fun r => r.deltaMs) = devs := by
  induction devs generalizing i with
  | nil => rfl
  | cons d ds ih => simp [mkRecords, ih]

theorem mean_replicate (n : ℕ) (hn : n ≠ 0) (c : ℚ) :
    mean (List.replicate n c) = c := by
  unfold mean
  rw [List.sum_replicate, List.length_replicate]
  have hq : ((n : ℚ)) ≠ 0 := by exact_mod_cast hn
  rw [nsmul_eq_mul]
  field_simp

theorem range_map_getD (f : ℕ → Option ℚ) (n i : ℕ) (h : i < n) :
    (((List.range n).map f).getD i none) = f i := by
  simp [List.getD_eq_getElem?_getD, List.getElem?_map, List.getElem?_range h]

theorem sampleVar_nonneg (xs : List ℚ) : 0 ≤ sampleVar xs := by
  unfold sampleVar
  rcases xs with _ | ⟨x, xs⟩
  · norm_num
  · apply div_nonneg
    · apply List.sum_nonneg
      intro y hy
      simp only [List.mem_map] at hy
      obtain ⟨z, _, rfl⟩ := hy
      positivity
    · simp only [List.length_cons]
      push_cast
      linarith [Nat.cast_nonneg (α := ℚ) xs.length]

theorem two_sqrt_lt_abs_iff (v x : ℝ) (hv : 0 ≤ v) :
    2 * Real.sqrt v < |x| ↔ 4 * v < x ^ 2 := by
  have hs : (2 * Real.sqrt v) ^ 2 = 4 * v := by
    rw [mul_pow, Real.sq_sqrt hv]
    norm_num
  constructor
  · intro hlt
    have h2 : (2 * Real.sqrt v) ^ 2 < |x| ^ 2 :=
      pow_lt_pow_left₀ hlt (by positivity) (by norm_num)
    rwa [hs, sq_abs] at h2
  · intro hlt
    have h2 : (2 * Real.sqrt v) ^ 2 < |x| ^ 2 := by
      rw [hs, sq_abs]
      exact hlt
    exact lt_of_pow_lt_pow_left₀ 2 (abs_nonneg x) h2

theorem windowSlice_length (xs : List ℚ) (start w : ℕ)
    (h : start + w ≤ xs.length) :
    (windowSlice xs start w).length = w := by
  unfold windowSlice
  rw [List.length_take, List.length_drop]
  omega

theorem replicate_getD (n i : ℕ) (c d : ℚ) :
    (List.replicate n c).getD i d = if i < n then c else d := by
  simp only [List.getD_eq_getElem?_getD, List.getElem?_replicate]
  split <;> simp

theorem mergeSort_replicate (n : ℕ) (c : ℚ) :
    (List.replicate n c).mergeSort (fun a b => decide (a ≤ b)) = List.replicate n c :=
  List.mergeSort_of_sorted (by simp [List.pairwise_replicate])

theorem quantile_replicate (n : ℕ) (hn : 0 < n) (c q : ℚ) (hq : q ≤ 1) :
    quantile (List.replicate n c) q = c := by
  unfold quantile
  rw [mergeSort_replicate]
  simp only [List.length_replicate]
  rw [if_neg (by omega)]
  have hmul : ((n : ℚ) - 1) * q ≤ ((n : ℚ) - 1) * 1 := by
    apply mul_le_mul_of_nonneg_left hq
    have : (1 : ℚ) ≤ (n : ℚ) := by exact_mod_cast hn
    linarith
  have hfl : ⌊((n : ℚ) - 1) * q⌋ ≤ (n : ℤ) - 1 := by
    have h2 := Int.floor_le_floor hmul
    have h3 : ⌊((n : ℚ) - 1) * 1⌋ = (n : ℤ) - 1 := by
      rw [mul_one]
      rw [show ((n : ℚ) - 1) = (((n : ℤ) - 1 : ℤ) : ℚ) by push_cast; ring]
      exact Int.floor_intCast _
    omega
  have hlo : (⌊((n : ℚ) - 1) * q⌋).toNat < n := by omega
  rw [replicate_getD, if_pos hlo, replicate_getD]
  split <;> ring

theorem countP_lt_add_countP_ge (devs : List ℚ) :
    devs.countP (fun d => decide (d < 0)) + devs.countP (fun d => decide (0 ≤ d)) =
      devs.length := by
  induction devs with
  | nil => rfl
  | cons d ds ih =>
    simp only [List.countP_cons, List.length_cons]
    by_cases hd : d < 0
    · rw [if_pos (by simpa using hd), if_neg (by simpa using not_le.mpr hd)]
      omega
    · rw [if_neg (by simpa using hd), if_pos (by simpa using not_lt.mp hd)]
      omega

theorem countP_gt_add_countP_le (devs : List ℚ) (w : ℚ) :
    devs.countP (fun d => decide (w < |d|)) + devs.countP (fun d => decide (|d| ≤ w)) =
      devs.length := by
  induction devs with
  | nil => rfl
  | cons d ds ih =>
    simp only [List.countP_cons, List.length_cons]
    by_cases hd : w < |d|
    · rw [if_pos (by simpa using hd), if_neg (by simpa using not_le.mpr hd)]
      omega
    · rw [if_neg (by simpa using hd), if_pos (by simpa using not_lt.mp hd)]
      omega

theorem wrongBatchCount_le_length (devs : List ℚ) (w : ℚ) :
    wrongBatchCount devs w ≤ devs.length :=
  List.countP_le_length _

/-! ### Claim theorems -/

/-- Claim C1: the mis-bucketed count is exactly the number of samples
with `|deviation| > w`, the correctly bucketed count is exactly the
number of samples with `|deviation| ≤ w`, and shrinking the window
never decreases the mis-bucketed count. -/
theorem C1_mis_bucketed_exact_and_monotone (devs : List ℚ) (w1 w2 : ℚ)
    (h1 : 0 < w1) (h12 : w1 ≤ w2) :
    wrongBatchCount devs w1 = devs.countP (fun d => decide (w1 < |d|)) ∧
    correctBatchCount devs w1 = devs.countP (fun d => decide (|d| ≤ w1)) ∧
    wrongBatchCount devs w2 ≤ wrongBatchCount devs w1 := by
  refine ⟨rfl, ?_, ?_⟩
  · have h := countP_gt_add_countP_le devs w1
    have h' := wrongBatchCount_le_length devs w1
    unfold correctBatchCount
    unfold wrongBatchCount at h h' ⊢
    omega
  · apply List.countP_mono_left
    intro x _ hx
    simp only [decide_eq_true_eq] at hx ⊢
    exact lt_of_le_of_lt h12 hx

/-- Witness for C1 at `devs = [3]`, `w1 = 1`, `w2 = 2`. -/
theorem C1_witness :
    (0 : ℚ) < 1 ∧ (1 : ℚ) ≤ 2 ∧
    (wrongBatchCount [(3 : ℚ)] 1 = [(3 : ℚ)].countP (fun d => decide ((1 : ℚ) < |d|)) ∧
     correctBatchCount [(3 : ℚ)] 1 = [(3 : ℚ)].countP (fun d => decide (|d| ≤ (1 : ℚ))) ∧
     wrongBatchCount [(3 : ℚ)] 2 ≤ wrongBatchCount [(3 : ℚ)] 1) :=
  ⟨by norm_num, by norm_num,
   C1_mis_bucketed_exact_and_monotone [3] 1 2 (by norm_num) (by norm_num)⟩

/-- Claim C2: the recommended minimum batch window is
`max(2·p99(|deviation|), 5000)`, hence at least `5000` and at least
`2·p99(|deviation|)`; the reported buffer variant is `1.2×` the
recommendation; and on an all-`500` series the recommendation is
`5000`. -/
theorem C2_recommended_window (devs : List ℚ) (h : devs ≠ []) (n : ℕ) (hn : 0 < n) :
    suggestedWindow devs = max (quantile (devs.map (fun d => |d|)) (99 / 100) * 2) 5000 ∧
    5000 ≤ suggestedWindow devs ∧
    quantile (devs.map (fun d => |d|)) (99 / 100) * 2 ≤ suggestedWindow devs ∧
    bufferedWindowReported devs = suggestedWindow devs * (12 / 10) ∧
    suggestedWindow (List.replicate n (500 : ℚ)) = 5000 := by
  refine ⟨rfl, le_max_right _ _, le_max_left _ _, ?_, ?_⟩
  · unfold bufferedWindowReported bufferWindow
    ring
  · unfold suggestedWindow
    rw [List.map_replicate]
    rw [show |(500 : ℚ)| = 500 by norm_num]
    rw [quantile_replicate n hn 500 (99 / 100) (by norm_num)]
    rw [max_eq_right (by norm_num)]

/-- Witness for C2 at `devs = [500]`, `n = 3`. -/
theorem C2_witness :
    ([(500 : ℚ)] ≠ [] ∧ 0 < 3) ∧
    (suggestedWindow [(500 : ℚ)] =
        max (quantile ([(500 : ℚ)].map (fun d => |d|)) (99 / 100) * 2) 5000 ∧
     5000 ≤ suggestedWindow [(500 : ℚ)] ∧
     quantile ([(500 : ℚ)].map (fun d => |d|)) (99 / 100) * 2 ≤ suggestedWindow [(500 : ℚ)] ∧
     bufferedWindowReported [(500 : ℚ)] = suggestedWindow [(500 : ℚ)] * (12 / 10) ∧
     suggestedWindow (List.replicate 3 (500 : ℚ)) = 5000) :=
  ⟨⟨by simp, by norm_num⟩, C2_recommended_window [500] (by simp) 3 (by norm_num)⟩

/-- Counterexample to C3 as stated: on the series `[0]` the
directional summary of `main` (line 549) counts zero future samples,
although one sample has deviation `≤ 0` — the code counts a zero
deviation as past, not future. -/
theorem C3_counterexample :
    futureCount [(0 : ℚ)] = 0 ∧
    ([(0 : ℚ)].countP (fun d => decide (d ≤ 0))) = 1 ∧
    futureCount [(0 : ℚ)] ≠ [(0 : ℚ)].countP (fun d => decide (d ≤ 0)) := by
  refine ⟨rfl, rfl, by decide⟩

/-- Claim C3 (amended): the directional summary counts a sample as
future exactly when its deviation is `< 0` (so past exactly when
`≥ 0`); the percentages are count over total times `100` and sum to
`100`; and on `[100, 150, -50, 200, 120]` the past count is `4`, the
future count is `1`, and the future percentage is `20`. -/
theorem C3_directional_summary (devs : List ℚ) (h : devs ≠ []) :
    futureCount devs = devs.countP (fun d => decide (d < 0)) ∧
    futurePct devs = (devs.countP (fun d => decide (d < 0)) : ℚ) / (devs.length : ℚ) * 100 ∧
    pastPct devs = (devs.countP (fun d => decide (0 ≤ d)) : ℚ) / (devs.length : ℚ) * 100 ∧
    futurePct devs + pastPct devs = 100 ∧
    futureCount [100, 150, -50, 200, 120] = 1 ∧
    ([(100 : ℚ), 150, -50, 200, 120].countP (fun d => decide (0 ≤ d))) = 4 ∧
    futurePct [100, 150, -50, 200, 120] = 20 := by
  have hn : ((devs.length : ℚ)) ≠ 0 := by
    have : devs.length ≠ 0 := by
      intro h0
      exact h (List.length_eq_zero.mp h0)
    exact_mod_cast this
  have hc := countP_lt_add_countP_ge devs
  refine ⟨rfl, rfl, ?_, ?_, rfl, rfl, ?_⟩
  · unfold pastPct futurePct futureCount
    have hcast : (devs.countP (fun d => decide (0 ≤ d)) : ℚ) =
        (devs.length : ℚ) - (devs.countP (fun d => decide (d < 0)) : ℚ) := by
      have := hc
      push_cast [← this]
      ring
    rw [hcast]
    field_simp
    ring
  · unfold pastPct
    ring
  · unfold futurePct
    rw [show futureCount [(100 : ℚ), 150, -50, 200, 120] = 1 from rfl]
    norm_num

/-- Witness for C3 (amended) at `devs = [1]`. -/
theorem C3_witness :
    ([(1 : ℚ)] ≠ []) ∧
    (futureCount [(1 : ℚ)] = [(1 : ℚ)].countP (fun d => decide (d < 0)) ∧
     futurePct [(1 : ℚ)] =
        ([(1 : ℚ)].countP (fun d => decide (d < 0)) : ℚ) / (([(1 : ℚ)].length : ℚ)) * 100 ∧
     pastPct [(1 : ℚ)] =
        ([(1 : ℚ)].countP (fun d => decide (0 ≤ d)) : ℚ) / (([(1 : ℚ)].length : ℚ)) * 100 ∧
     futurePct [(1 : ℚ)] + pastPct [(1 : ℚ)] = 100 ∧
     futureCount [100, 150, -50, 200, 120] = 1 ∧
     ([(100 : ℚ), 150, -50, 200, 120].countP (fun d => decide (0 ≤ d))) = 4 ∧
     futurePct [100, 150, -50, 200, 120] = 20) :=
  ⟨by simp, C3_directional_summary [1] (by simp)⟩

/-- Counterexample to C4 as stated: on the empty series
`batch_simulation` does not raise any dedicated validation error — it
reaches the unguarded division `wrong_batch_count / len(deltas)`
(NaN). -/
theorem C4_counterexample :
    batchSimulation [] 15000 = BatchOutcome.nanDivision ∧
    batchSimulation [] 15000 ≠ BatchOutcome.validationError := by
  refine ⟨rfl, by intro h; exact BatchOutcome.noConfusion h⟩

/-- Claim C4 (amended): on the empty series the batch computation
performs the unguarded division by the total count and propagates NaN
(`nanDivision`) for every window; no `EmptySeriesError` or
`ValidationError` path exists in the code. -/
theorem C4_empty_series_unguarded (w : ℚ) :
    batchSimulation [] w = BatchOutcome.nanDivision := rfl

/-- Claim C10: under a positive window the mis-bucketed samples are
exactly partitioned by direction — the future-caused and past-caused
counts sum to the total mis-bucketed count, a zero deviation never
being mis-bucketed. -/
theorem C10_direction_partition (devs : List ℚ) (w : ℚ) (hw : 0 < w) :
    futureWrongCount devs w + pastWrongCount devs w = wrongBatchCount devs w := by
  unfold futureWrongCount pastWrongCount wrongBatchCount
  induction devs with
  | nil => rfl
  | cons d ds ih =>
    simp only [List.countP_cons]
    have hsplit :
        ((if (decide (d < 0) && decide (w < |d|)) = true then 1 else 0) : ℕ) +
          (if (decide (0 < d) && decide (w < |d|)) = true then 1 else 0) =
          if decide (w < |d|) = true then 1 else 0 := by
      by_cases hgt : w < |d|
      · have hd0 : d ≠ 0 := by
          intro h0
          rw [h0] at hgt
          simp at hgt
          linarith
        rcases hd0.lt_or_lt with hd | hd
        · simp [hgt, hd, asymm hd]
        · simp [hgt, hd, asymm hd]
      · simp [hgt]
    omega

/-- Witness for C10 at `devs = [3, -20, 0]`, `w = 1`. -/
theorem C10_witness :
    (0 : ℚ) < 1 ∧
    futureWrongCount [(3 : ℚ), -20, 0] 1 + pastWrongCount [(3 : ℚ), -20, 0] 1 =
      wrongBatchCount [(3 : ℚ), -20, 0] 1 :=
  ⟨by norm_num, C10_direction_partition [3, -20, 0] 1 (by norm_num)⟩

/-- Counterexample to C6 as stated: on a series of exactly 30 records
the trend analysis runs (a report is produced) but the shift-detection
scan does not — the source gate is `len(df) > 30`, not `≥ 30`. -/
theorem C6_counterexample :
    (mkSeries (List.replicate 30 (0 : ℚ))).records.length = 30 ∧
    (analyzeTrends (mkSeries (List.replicate 30 (0 : ℚ)))).map (fun r => r.shifts) =
      some none := by
  have hlen : (mkSeries (List.replicate 30 (0 : ℚ))).records.length = 30 := by
    simp [mkSeries, mkRecords_length]
  refine ⟨hlen, ?_⟩
  unfold analyzeTrends
  rw [if_neg (by rw [hlen]; omega)]
  show some ((trendReportOf (mkSeries (List.replicate 30 (0 : ℚ)))).shifts) = some none
  unfold trendReportOf
  simp only [hlen]
  norm_num

/-- Claim C6 (amended): the shift-detection scan runs exactly when the
detailed series has more than 30 records (`n ≥ 31`); for `n ≤ 30` the
shift sub-report is absent while the trend report itself is still
produced whenever the 10-record gate passes. -/
theorem C6_shift_gate (s : ChainSeries) :
    ((analyzeTrends s).elim false (fun r => r.shifts.isSome)) =
      decide (30 < s.records.length) ∧
    (analyzeTrends s).isSome = decide (10 ≤ s.records.length) := by
  unfold analyzeTrends
  by_cases h : s.records.length < 10
  · rw [if_pos h]
    constructor
    · have h30 : ¬ 30 < s.records.length := by omega
      simp [h30]
    · have h10 : ¬ 10 ≤ s.records.length := by omega
      simp [h10]
  · rw [if_neg h]
    constructor
    · unfold trendReportOf
      by_cases h30 : 30 < s.records.length
      · simp [h30]
      · simp [h30]
    · simp
      omega

/-- Counterexample to C5 as stated: on a 10-record series with every
deviation `-100`, the source's `Rolling_Avg` at position 4 (window 5)
is `-100` — the rolling mean of the SIGNED deviation — whereas the
rolling mean of the absolute deviation claimed by the specification
is `100`. -/
theorem C5_counterexample :
    (analyzeTrends (mkSeries (List.replicate 10 (-100 : ℚ)))).map
        (fun r => r.rollingAvgs.getD 4 none) = some (some (-100)) ∧
    specRollingMeanAbsAt (mkSeries (List.replicate 10 (-100 : ℚ))).records 5 4 =
      some 100 ∧
    ((-100 : ℚ) ≠ 100) := by
  have hlen : (mkSeries (List.replicate 10 (-100 : ℚ))).records.length = 10 := by
    simp [mkSeries, mkRecords_length]
  have hsort : sortRecords (mkSeries (List.replicate 10 (-100 : ℚ))).records =
      mkRecords (List.replicate 10 (-100 : ℚ)) 0 := sortRecords_mkRecords _ 0
  have hds : (sortRecords (mkSeries (List.replicate 10 (-100 : ℚ))).records).map
      (fun r => r.deltaMs) = List.replicate 10 (-100 : ℚ) := by
    rw [hsort, mkRecords_map_delta]
  refine ⟨?_, ?_, by norm_num⟩
  · unfold analyzeTrends
    rw [if_neg (by rw [hlen]; omega)]
    show some ((trendReportOf (mkSeries (List.replicate 10 (-100 : ℚ)))).rollingAvgs.getD
      4 none) = some (some (-100))
    unfold trendReportOf
    simp only [hlen, hds]
    rw [range_map_getD _ 10 4 (by norm_num)]
    rw [show min 20 (10 / 2) = 5 from rfl]
    unfold rollingMeanAt
    rw [if_neg (by norm_num)]
    unfold windowSlice
    rw [show (4 + 1 : ℕ) - 5 = 0 from rfl, List.drop_zero, List.take_replicate]
    rw [show min 5 10 = 5 from rfl, mean_replicate 5 (by norm_num)]
  · unfold specRollingMeanAbsAt
    have habs : (sortRecords (mkSeries (List.replicate 10 (-100 : ℚ))).records).map
        (fun r => |r.deltaMs|) = List.replicate 10 (100 : ℚ) := by
      rw [show (fun r : Record => |r.deltaMs|) =
        (fun d : ℚ => |d|) ∘ (fun r : Record => r.deltaMs) from rfl]
      rw [← List.map_map, hds, List.map_replicate]
      norm_num
    rw [habs]
    unfold rollingMeanAt
    rw [if_neg (by norm_num)]
    unfold windowSlice
    rw [show (4 + 1 : ℕ) - 5 = 0 from rfl, List.drop_zero, List.take_replicate]
    rw [show min 5 10 = 5 from rfl, mean_replicate 5 (by norm_num)]

/-- Claim C5 (amended): for a detailed series with at least 10
records, the rolling columns are the rolling mean and rolling
standard deviation (represented by its square, the sample variance)
of the SIGNED deviation `Delta (ms)` — not the absolute deviation —
of the block-number-sorted records, over a sliding window of exactly
`min(20, ⌊n/2⌋)` records, where each position's value is the
aggregate of its own window slice only, undefined (NaN) before a full
window exists. -/
theorem C5_rolling_over_signed (s : ChainSeries) (h : 10 ≤ s.records.length) :
    analyzeTrends s = some (trendReportOf s) ∧
    (trendReportOf s).windowSize = min 20 (s.records.length / 2) ∧
    (trendReportOf s).rollingAvgs.length = s.records.length ∧
    (trendReportOf s).rollingVars.length = s.records.length ∧
    (∀ i, i < s.records.length →
      (trendReportOf s).rollingAvgs.getD i none =
        rollingMeanAt ((sortRecords s.records).map (fun r => r.deltaMs))
          (min 20 (s.records.length / 2)) i ∧
      (trendReportOf s).rollingVars.getD i none =
        rollingVarAt ((sortRecords s.records).map (fun r => r.deltaMs))
          (min 20 (s.records.length / 2)) i) ∧
    (∀ xs : List ℚ, ∀ w i, w ≤ i + 1 →
      rollingMeanAt xs w i = some (mean (windowSlice xs (i + 1 - w) w)) ∧
      rollingVarAt xs w i = some (sampleVar (windowSlice xs (i + 1 - w) w))) ∧
    (∀ xs : List ℚ, ∀ w i, i + 1 < w →
      rollingMeanAt xs w i = none ∧ rollingVarAt xs w i = none) ∧
    (∀ xs ys : List ℚ, ∀ w i,
      windowSlice xs (i + 1 - w) w = windowSlice ys (i + 1 - w) w →
      rollingMeanAt xs w i = rollingMeanAt ys w i ∧
      rollingVarAt xs w i = rollingVarAt ys w i) ∧
    (∀ xs : List ℚ, ∀ st w, st + w ≤ xs.length → (windowSlice xs st w).length = w) := by
  refine ⟨?_, rfl, ?_, ?_, ?_, ?_, ?_, ?_, ?_⟩
  · unfold analyzeTrends
    rw [if_neg (by omega)]
  · unfold trendReportOf
    simp
  · unfold trendReportOf
    simp
  · intro i hi
    unfold trendReportOf
    constructor
    · rw [range_map_getD _ _ _ hi]
    · rw [range_map_getD _ _ _ hi]
  · intro xs w i hwi
    unfold rollingMeanAt rollingVarAt
    rw [if_neg (by omega), if_neg (by omega)]
    exact ⟨rfl, rfl⟩
  · intro xs w i hwi
    unfold rollingMeanAt rollingVarAt
    rw [if_pos hwi, if_pos hwi]
    exact ⟨rfl, rfl⟩
  · intro xs ys w i hslice
    unfold rollingMeanAt rollingVarAt
    rw [hslice]
    exact ⟨rfl, rfl⟩
  · exact windowSlice_length

/-- Witness for C5 (amended) at a 10-record series with deviations
all `100`. -/
theorem C5_witness :
    10 ≤ (mkSeries (List.replicate 10 (100 : ℚ))).records.length ∧
    analyzeTrends (mkSeries (List.replicate 10 (100 : ℚ))) =
      some (trendReportOf (mkSeries (List.replicate 10 (100 : ℚ)))) :=
  ⟨by simp [mkSeries, mkRecords_length],
   (C5_rolling_over_signed _ (by simp [mkSeries, mkRecords_length])).1⟩

/-- Claim C7: when shift detection runs, an index `i` is flagged
exactly when `i` lies in the half-open interior range
`[w, n - w)` and the distance between the mean absolute deviations of
the windows before and from `i` exceeds twice the overall standard
deviation of absolute deviation; at most the first 3 flagged indices
are reported, with a count of the remainder. -/
theorem C7_shift_point_characterization (s : ChainSeries)
    (h : 30 < s.records.length) :
    analyzeTrends s = some (trendReportOf s) ∧
    (trendReportOf s).shifts =
      some (shiftScan
        (((sortRecords s.records).map (fun r => r.deltaMs)).map (fun d => |d|))
        (min 20 (s.records.length / 2))) ∧
    (((sortRecords s.records).map (fun r => r.deltaMs)).map (fun d => |d|)).length =
      s.records.length ∧
    (∀ absDs : List ℚ, ∀ w i,
      i ∈ shiftScan absDs w ↔
        w ≤ i ∧ i < absDs.length - w ∧
        2 * Real.sqrt ((sampleVar absDs : ℚ) : ℝ) <
          |((mean (windowSlice absDs i w) : ℚ) : ℝ) -
            ((mean (windowSlice absDs (i - w) w) : ℚ) : ℝ)|) ∧
    (∀ pts : List ℕ, reportedShifts pts = pts.take 3 ∧
      (3 < pts.length → remainderCount pts = pts.length - 3)) := by
  refine ⟨?_, ?_, ?_, ?_, fun pts => ⟨rfl, fun _ => rfl⟩⟩
  · unfold analyzeTrends
    rw [if_neg (by omega)]
  · unfold trendReportOf
    simp only
    rw [if_pos h]
  · simp [sortRecords]
  · intro absDs w i
    unfold shiftScan
    rw [List.mem_filter]
    have hrange : i ∈ List.range' w (absDs.length - 2 * w) ↔
        w ≤ i ∧ i < w + (absDs.length - 2 * w) := by
      rw [List.mem_range']
      constructor
      · rintro ⟨j, hj, rfl⟩
        omega
      · intro hle
        exact ⟨i - w, by omega, by omega⟩
    rw [hrange]
    unfold shiftCond
    simp only [decide_eq_true_eq]
    have hv : (0 : ℝ) ≤ ((sampleVar absDs : ℚ) : ℝ) := by
      exact_mod_cast sampleVar_nonneg absDs
    rw [two_sqrt_lt_abs_iff _ _ hv]
    constructor
    · rintro ⟨hin, hcond⟩
      refine ⟨by omega, by omega, ?_⟩
      exact_mod_cast hcond
    · rintro ⟨h1, h2, hcond⟩
      refine ⟨⟨h1, by omega⟩, ?_⟩
      exact_mod_cast hcond

/-- Witness for C7 at a 31-record series with deviations all `0`. -/
theorem C7_witness :
    30 < (mkSeries (List.replicate 31 (0 : ℚ))).records.length ∧
    analyzeTrends (mkSeries (List.replicate 31 (0 : ℚ))) =
      some (trendReportOf (mkSeries (List.replicate 31 (0 : ℚ)))) :=
  ⟨by simp [mkSeries, mkRecords_length],
   (C7_shift_point_characterization _ (by simp [mkSeries, mkRecords_length])).1⟩

/-- Claim C8: the half-series drift of a (sorted) detailed series with
at least 10 records is `(second_half_mean - first_half_mean) /
first_half_mean × 100`, guarded to `0` when the first-half mean is
`0`, each half-mean being the mean absolute deviation of the
corresponding half of the block-number-sorted records; the
classification is stable iff `|drift| < 5`, improving iff the drift
is negative and not stable, degrading iff positive and not stable. -/
theorem C8_half_series_drift (s : ChainSeries) (h : 10 ≤ s.records.length) :
    analyzeTrends s = some (trendReportOf s) ∧
    (trendReportOf s).relDrift = halfRelDrift (sortRecords s.records) ∧
    (trendReportOf s).drift = halfDriftClass (sortRecords s.records) ∧
    (∀ rs : List Record,
      firstHalfMeanAbs rs =
        mean ((rs.take (rs.length / 2)).map (fun r => |r.deltaMs|)) ∧
      secondHalfMeanAbs rs =
        mean ((rs.drop (rs.length / 2)).map (fun r => |r.deltaMs|)) ∧
      halfRelDrift rs =
        (if 0 < firstHalfMeanAbs rs then
          (secondHalfMeanAbs rs - firstHalfMeanAbs rs) / firstHalfMeanAbs rs * 100
        else 0) ∧
      (halfDriftClass rs = DriftClass.stable ↔ |halfRelDrift rs| < 5) ∧
      (halfDriftClass rs = DriftClass.improving ↔
        (halfRelDrift rs < 0 ∧ ¬ |halfRelDrift rs| < 5)) ∧
      (halfDriftClass rs = DriftClass.degrading ↔
        (0 < halfRelDrift rs ∧ ¬ |halfRelDrift rs| < 5))) := by
  refine ⟨?_, rfl, rfl, ?_⟩
  · unfold analyzeTrends
    rw [if_neg (by omega)]
  · intro rs
    refine ⟨rfl, rfl, rfl, ?_⟩
    unfold halfDriftClass
    by_cases h5 : |halfRelDrift rs| < 5
    · rw [if_pos h5]
      refine ⟨by simp [h5], ?_, ?_⟩
      · constructor
        · intro hh
          exact DriftClass.noConfusion hh
        · rintro ⟨_, hc⟩
          exact absurd h5 hc
      · constructor
        · intro hh
          exact DriftClass.noConfusion hh
        · rintro ⟨_, hc⟩
          exact absurd h5 hc
    · rw [if_neg h5]
      by_cases hneg : halfRelDrift rs < 0
      · rw [if_pos hneg]
        refine ⟨?_, by simp [hneg, h5], ?_⟩
        · constructor
          · intro hh
            exact DriftClass.noConfusion hh
          · intro hc
            exact absurd hc h5
        · constructor
          · intro hh
            exact DriftClass.noConfusion hh
          · rintro ⟨hpos, _⟩
            linarith
      · rw [if_neg hneg]
        have hpos : 0 < halfRelDrift rs := by
          rcases lt_trichotomy (halfRelDrift rs) 0 with hlt | heq | hgt
          · exact absurd hlt hneg
          · exfalso
            apply h5
            rw [heq]
            norm_num
          · exact hgt
        refine ⟨?_, ?_, by simp [hpos, h5]⟩
        · constructor
          · intro hh
            exact DriftClass.noConfusion hh
          · intro hc
            exact absurd hc h5
        · constructor
          · intro hh
            exact DriftClass.noConfusion hh
          · rintro ⟨hlt, _⟩
            exact absurd hlt hneg

/-- Witness for C8 at a 10-record series with deviations all `100`. -/
theorem C8_witness :
    10 ≤ (mkSeries (List.replicate 10 (200 : ℚ))).records.length ∧
    analyzeTrends (mkSeries (List.replicate 10 (200 : ℚ))) =
      some (trendReportOf (mkSeries (List.replicate 10 (200 : ℚ)))) :=
  ⟨by simp [mkSeries, mkRecords_length],
   (C8_half_series_drift _ (by simp [mkSeries, mkRecords_length])).1⟩

/-- Claim C9: no analysis mutates a series — the trend-analysis loop
returns the store of chain series exactly as it received it, and the
analyzer works on a derived copy of the records that is a
block-number-sorted permutation of the originals. -/
theorem C9_no_mutation :
    (∀ store, (runTrendAnalysis store).1 = store) ∧
    (∀ s : ChainSeries,
      (sortRecords s.records).Perm s.records ∧
      (sortRecords s.records).Pairwise (fun a b => a.blockNumber ≤ b.blockNumber)) := by
  constructor
  · intro store
    induction store with
    | nil => rfl
    | cons p rest ih =>
      obtain ⟨c, s⟩ := p
      simp only [runTrendAnalysis, ih]
  · intro s
    refine ⟨List.mergeSort_perm _ _, ?_⟩
    have hp : (s.records.mergeSort
        (fun a b => decide (a.blockNumber ≤ b.blockNumber))).Pairwise
        (fun a b => (decide (a.blockNumber ≤ b.blockNumber)) = true) := by
      apply List.sorted_mergeSort
      · intro a b c hab hbc
        simp only [decide_eq_true_eq] at hab hbc ⊢
        omega
      · intro a b
        simp only [Bool.or_eq_true, decide_eq_true_eq]
        omega
    exact hp.imp (fun hab => by simpa using hab)

end TimestampAnalysis
